import Mathlib

/-!
Verification of the Directory Apostrophe Normalizer
(src/02_01_replace_directory_apostrophes.py).

Central finding, fixed by byte-level inspection of the source: line 36
assigns TYPOGRAPHIC_APOSTROPHE a string literal whose only character is
the ASCII apostrophe U+0027 — the same character as STRAIGHT_APOSTROPHE —
although the trailing comment on that line says U+2019 (the file is
genuine UTF-8 and contains no U+2019 anywhere).  Consequently the
classifier needs_standardization is identically False, the transformation
standardize_apostrophes is the identity, and every directory is always
skipped.  The embedding below uses the actual byte; definitions marked
"Modelled from the spec" capture the intended U+2019 semantics named by
the spec and by the comments and docstrings of the source, for stating
where the code diverges from it.

Shallow embedding conventions:
- A directory name is a list of Unicode code points (Python strings are
  sequences of code points).
- A path is the list of its name segments, relative to the base directory.
  Python compares path depths with len(p.parts); all compared paths share
  the same base prefix, so the base-relative segment count orders them
  identically.
- The filesystem is a finite association list from paths to metadata;
  renaming a directory re-keys the renamed path and every path below it,
  exactly as the OS-level atomic rename does.
- The DirectoryRenamer object state carries the dry_run flag, the three
  ledgers (renamed, skipped, errored), the metadata cache keyed by path,
  the filesystem, and the list of metadata-restore warnings printed by the
  script (one entry per failed restore_metadata call after a rename).
-/

/-- A directory name: the list of Unicode code points of the Python string. -/
abbrev Name := List Nat

/-- A path: base-relative list of name segments. -/
abbrev DirPath := List Name

/-- U+0027, the plain (straight) apostrophe; constant STRAIGHT_APOSTROPHE. -/
def STRAIGHT_APOSTROPHE : Nat := 39

/-- Constant TYPOGRAPHIC_APOSTROPHE of the source, line 36.  The string
literal there holds the ASCII apostrophe U+0027, not the typographic
apostrophe U+2019 that the trailing source comment names, so the constant
equals STRAIGHT_APOSTROPHE. -/
def TYPOGRAPHIC_APOSTROPHE : Nat := 39

/-- DirectoryRenamer.has_straight_apostrophe: the Python membership test
STRAIGHT_APOSTROPHE in dir_name. -/
def has_straight_apostrophe (dir_name : Name) : Bool :=
  dir_name.any (fun c => decide (c = STRAIGHT_APOSTROPHE))

/-- DirectoryRenamer.has_typographic_apostrophe: the Python membership test
TYPOGRAPHIC_APOSTROPHE in dir_name. -/
def has_typographic_apostrophe (dir_name : Name) : Bool :=
  dir_name.any (fun c => decide (c = TYPOGRAPHIC_APOSTROPHE))

/-- DirectoryRenamer.needs_standardization. -/
def needs_standardization (dir_name : Name) : Bool :=
  has_straight_apostrophe dir_name && !(has_typographic_apostrophe dir_name)

/-- DirectoryRenamer.standardize_apostrophes: Python
dir_name.replace(STRAIGHT_APOSTROPHE, TYPOGRAPHIC_APOSTROPHE); for
single-character arguments str.replace maps each occurrence pointwise. -/
def standardize_apostrophes (dir_name : Name) : Name :=
  dir_name.map (fun c =>
    if c = STRAIGHT_APOSTROPHE then TYPOGRAPHIC_APOSTROPHE else c)

lemma has_straight_iff (n : Name) :
    has_straight_apostrophe n = true ↔ STRAIGHT_APOSTROPHE ∈ n := by
  simp [has_straight_apostrophe, List.any_eq_true]

lemma has_typographic_iff (n : Name) :
    has_typographic_apostrophe n = true ↔ TYPOGRAPHIC_APOSTROPHE ∈ n := by
  simp [has_typographic_apostrophe, List.any_eq_true]

lemma needs_standardization_iff (n : Name) :
    needs_standardization n = true ↔
      (STRAIGHT_APOSTROPHE ∈ n ∧ TYPOGRAPHIC_APOSTROPHE ∉ n) := by
  unfold needs_standardization
  rw [Bool.and_eq_true, Bool.not_eq_true', has_straight_iff]
  constructor
  · rintro ⟨hs, ht⟩
    refine ⟨hs, fun hm => ?_⟩
    rw [(has_typographic_iff n).mpr hm] at ht
    cases ht
  · rintro ⟨hs, ht⟩
    refine ⟨hs, ?_⟩
    rcases hb : has_typographic_apostrophe n with _ | _
    · rfl
    · exact absurd ((has_typographic_iff n).mp hb) ht

/-- In the source the two constants hold the same character, so the two
membership tests coincide. -/
lemma has_typographic_eq_has_straight (n : Name) :
    has_typographic_apostrophe n = has_straight_apostrophe n := rfl

/-- The classifier of the source is identically False: it asks for a name
that contains the apostrophe character and at the same time does not
contain it. -/
lemma needs_always_false (n : Name) : needs_standardization n = false := by
  unfold needs_standardization
  rw [has_typographic_eq_has_straight]
  rcases h : has_straight_apostrophe n with _ | _ <;> simp

/-- The transformation of the source is the identity: with both constants
equal, str.replace substitutes the apostrophe for itself. -/
lemma standardize_id (n : Name) : standardize_apostrophes n = n := by
  unfold standardize_apostrophes
  have hpt : ∀ c ∈ n,
      (if c = STRAIGHT_APOSTROPHE then TYPOGRAPHIC_APOSTROPHE else c) = c := by
    intro c _
    by_cases h : c = STRAIGHT_APOSTROPHE
    · rw [if_pos h, h]
      rfl
    · rw [if_neg h]
  rw [List.map_congr_left hpt]
  exact List.map_id n

/-- Modelled from the spec: the typographic apostrophe U+2019 that the
spec — and the comments and docstrings of the source — name as the
replacement target.  The source constant does not hold this character. -/
def SPEC_TYPOGRAPHIC_MARK : Nat := 8217

/-- Modelled from the spec: the intended transformation, replacing every
plain mark U+0027 with the typographic mark U+2019. -/
def specStandardize (n : Name) : Name :=
  n.map (fun c => if c = STRAIGHT_APOSTROPHE then SPEC_TYPOGRAPHIC_MARK else c)

/-- Modelled from the spec: a name needs standardization iff it contains
at least one plain mark and zero typographic marks. -/
def specNeedsStandardization (n : Name) : Bool :=
  n.any (fun c => decide (c = STRAIGHT_APOSTROPHE)) &&
    !(n.any (fun c => decide (c = SPEC_TYPOGRAPHIC_MARK)))

/-- Claim C3 is violated by the code: both apostrophe constants of the
source hold the same character U+0027, so standardize_apostrophes replaces
the plain apostrophe with itself and is the identity on every name.  At
the name 2023 O'Brien — one plain apostrophe, no typographic one — the
output still contains the plain apostrophe and contains no typographic
apostrophe U+2019, while the claim demands zero plain marks and at least
one typographic mark. -/
theorem c3_transformation_is_identity :
    (∀ n : Name, standardize_apostrophes n = n) ∧
    STRAIGHT_APOSTROPHE ∈
      standardize_apostrophes [50, 48, 50, 51, 32, 79, 39, 66, 114, 105, 101, 110] ∧
    SPEC_TYPOGRAPHIC_MARK ∉
      standardize_apostrophes [50, 48, 50, 51, 32, 79, 39, 66, 114, 105, 101, 110] :=
  ⟨standardize_id, by decide, by decide⟩

/-- Claim C4 is violated by the code: the classifier tests the same
character twice ("contains U+0027 and does not contain U+0027") and is
identically False; at the plain-only name 2023 O'Brien the claim predicts
True but the code returns False. -/
theorem c4_classifier_constantly_false :
    (∀ n : Name, needs_standardization n = false) ∧
    (STRAIGHT_APOSTROPHE ∈
        ([50, 48, 50, 51, 32, 79, 39, 66, 114, 105, 101, 110] : Name) ∧
      SPEC_TYPOGRAPHIC_MARK ∉
        ([50, 48, 50, 51, 32, 79, 39, 66, 114, 105, 101, 110] : Name) ∧
      needs_standardization [50, 48, 50, 51, 32, 79, 39, 66, 114, 105, 101, 110] =
        false) :=
  ⟨needs_always_false, by decide, by decide, by decide⟩

/-- Claim C8: running the classifier on an already-transformed name
reports that it does not need standardization, and applying the
transformation twice equals applying it once.  In the code the classifier
is identically False and the transformation is the identity, so both
parts hold for every name, with no eligibility precondition needed. -/
theorem c8_idempotent (n : Name) :
    needs_standardization (standardize_apostrophes n) = false ∧
    standardize_apostrophes (standardize_apostrophes n) =
      standardize_apostrophes n :=
  ⟨needs_always_false _, by rw [standardize_id]⟩

/-- Metadata captured by os.stat and cached by save_metadata. -/
structure Metadata where
  mode : Nat
  uid : Nat
  gid : Nat
  atime : Nat
  mtime : Nat
  ctime : Nat
deriving DecidableEq, Repr, Inhabited

/-- The filesystem: a finite association list from directory paths to their
metadata. -/
abbrev FS := List (DirPath × Metadata)

/-- Path.exists on the model filesystem. -/
def pathExists (p : DirPath) (fs : FS) : Bool :=
  fs.any (fun pr => decide (pr.1 = p))

/-- os.stat on the model filesystem: some metadata when the path exists. -/
def statFS (p : DirPath) (fs : FS) : Option Metadata :=
  (fs.find? (fun pr => decide (pr.1 = p))).map Prod.snd

/-- One path re-keying step of the OS rename: paths at or below the renamed
directory get the new prefix, all others are untouched. -/
def rekeyOne (old new q : DirPath) : DirPath :=
  if old.isPrefixOf q then new ++ q.drop old.length else q

/-- The OS-level atomic rename of directory old to new: re-keys the whole
subtree, keeping each metadata record attached to its directory. -/
def renameFS (old new : DirPath) (fs : FS) : FS :=
  fs.map (fun pr => (rekeyOne old new pr.1, pr.2))

/-- os.chmod, os.chown and os.utime at path p as performed by
restore_metadata: permission bits, owner, group, access and modification
times are set from the snapshot; ctime is saved by save_metadata but never
written back (os.utime has no ctime argument). -/
def applyMeta (p : DirPath) (m : Metadata) (fs : FS) : FS :=
  fs.map (fun pr =>
    if pr.1 = p then
      (pr.1, { mode := m.mode, uid := m.uid, gid := m.gid,
               atime := m.atime, mtime := m.mtime, ctime := pr.2.ctime })
    else pr)

/-- Reasons recorded in the errored ledger. -/
inductive ErrReason where
  | destinationExists
  | failedSaveMetadata
deriving DecidableEq, Repr, Inhabited

/-- The DirectoryRenamer object state plus the filesystem it acts on.
warnings records the per-rename message printed when restore_metadata
returns False after a non-simulated rename. -/
structure RenamerState where
  dry_run : Bool
  renamed_dirs : List (DirPath × DirPath)
  skipped_dirs : List DirPath
  error_dirs : List (DirPath × ErrReason)
  metadata_cache : List (DirPath × Metadata)
  fs : FS
  warnings : List DirPath
deriving DecidableEq, Repr

/-- Python dict lookup in metadata_cache (latest insertion wins). -/
def lookupCache (p : DirPath) (cache : List (DirPath × Metadata)) :
    Option Metadata :=
  (cache.find? (fun pr => decide (pr.1 = p))).map Prod.snd

/-- DirectoryRenamer.save_metadata: stat the path and cache the snapshot
under that same path; returns False when stat raises (path missing). -/
def save_metadata (s : RenamerState) (dir_path : DirPath) :
    RenamerState × Bool :=
  match statFS dir_path s.fs with
  | some m =>
      ({ s with metadata_cache := (dir_path, m) :: s.metadata_cache }, true)
  | none => (s, false)

/-- DirectoryRenamer.restore_metadata: look the argument path up in the
cache; on a miss return False, otherwise chmod/chown/utime that path
(returning False if the path is gone and those calls raise). -/
def restore_metadata (s : RenamerState) (dir_path : DirPath) :
    RenamerState × Bool :=
  match lookupCache dir_path s.metadata_cache with
  | none => (s, false)
  | some m =>
      if pathExists dir_path s.fs then
        ({ s with fs := applyMeta dir_path m s.fs }, true)
      else (s, false)

/-- Path.name of the final segment (empty for the empty path). -/
def lastName (p : DirPath) : Name := p.getLastD []

/-- The destination path computed by rename_directory:
parent ++ standardized name. -/
def newPath (p : DirPath) : DirPath :=
  p.dropLast ++ [standardize_apostrophes (lastName p)]

/-- DirectoryRenamer.rename_directory, translated control-flow step by
step from the source.  The OS rename itself cannot raise here because the
destination was just checked absent and the source was just stat-ed, and no
other mutation happens in between in this sequential model; the Python
except branch around the rename call is therefore unreachable in the
model. -/
def rename_directory (s : RenamerState) (dir_path : DirPath) :
    RenamerState × Bool :=
  let dir_name := lastName dir_path
  let parent_dir := dir_path.dropLast
  if needs_standardization dir_name = false then
    ({ s with skipped_dirs := s.skipped_dirs ++ [dir_path] }, true)
  else
    let new_name := standardize_apostrophes dir_name
    let new_path := parent_dir ++ [new_name]
    if pathExists new_path s.fs then
      ({ s with error_dirs := s.error_dirs ++ [(dir_path, ErrReason.destinationExists)] },
       false)
    else
      match save_metadata s dir_path with
      | (s1, false) =>
          ({ s1 with error_dirs := s1.error_dirs ++ [(dir_path, ErrReason.failedSaveMetadata)] },
           false)
      | (s1, true) =>
          if s1.dry_run then
            ({ s1 with renamed_dirs := s1.renamed_dirs ++ [(dir_path, new_path)] },
             true)
          else
            let s2 := { s1 with fs := renameFS dir_path new_path s1.fs }
            match restore_metadata s2 new_path with
            | (s3, true) =>
                ({ s3 with renamed_dirs := s3.renamed_dirs ++ [(dir_path, new_path)] },
                 true)
            | (s3, false) =>
                ({ s3 with
                    warnings := s3.warnings ++ [new_path],
                    renamed_dirs := s3.renamed_dirs ++ [(dir_path, new_path)] },
                 true)

/-- Total processed count used by validate_changes and the summary. -/
def totalProcessed (s : RenamerState) : Nat :=
  s.renamed_dirs.length + s.skipped_dirs.length + s.error_dirs.length

/-- DirectoryRenamer.validate_changes: every renamed entry must exist at
its new path on the current filesystem (checked in every mode), and at
least one directory must have been processed. -/
def validate_changes (s : RenamerState) : Bool :=
  s.renamed_dirs.all (fun pr => pathExists pr.2 s.fs) &&
    !(decide (totalProcessed s = 0))

/-- The per-directory processing loop body applied over a list of visited
paths (the loops of process_directories ignore the returned Bool). -/
def processVisits (s : RenamerState) (visits : List DirPath) : RenamerState :=
  visits.foldl (fun st p => (rename_directory st p).1) s

/-- A fresh DirectoryRenamer as built by __init__, acting on filesystem
fs with the given dry_run flag. -/
def initState (dry : Bool) (fs : FS) : RenamerState :=
  { dry_run := dry, renamed_dirs := [], skipped_dirs := [], error_dirs := [],
    metadata_cache := [], fs := fs, warnings := [] }

/-!
Basic facts about the model filesystem and the processing step.
-/

lemma pathExists_iff (p : DirPath) (fs : FS) :
    pathExists p fs = true ↔ ∃ pr ∈ fs, pr.1 = p := by
  simp [pathExists, List.any_eq_true]


lemma statFS_nil (p : DirPath) : statFS p ([] : FS) = none := rfl

lemma statFS_cons (pr : DirPath × Metadata) (t : FS) (p : DirPath) :
    statFS p (pr :: t) = if pr.1 = p then some pr.2 else statFS p t := by
  by_cases h : pr.1 = p
  · simp [statFS, List.find?_cons_of_pos, h]
  · simp [statFS, List.find?_cons_of_neg, h]

lemma pathExists_nil (p : DirPath) : pathExists p ([] : FS) = false := rfl

lemma pathExists_cons (pr : DirPath × Metadata) (t : FS) (p : DirPath) :
    pathExists p (pr :: t) = (decide (pr.1 = p) || pathExists p t) := by
  simp [pathExists]

lemma statFS_none_iff (p : DirPath) (fs : FS) :
    statFS p fs = none ↔ pathExists p fs = false := by
  induction fs with
  | nil => simp [statFS_nil, pathExists_nil]
  | cons pr t ih =>
    rw [statFS_cons, pathExists_cons]
    by_cases h : pr.1 = p
    · simp [h]
    · simp [h, ih]

lemma statFS_some_of_exists (p : DirPath) (fs : FS)
    (h : pathExists p fs = true) : ∃ m, statFS p fs = some m := by
  rcases ho : statFS p fs with _ | m
  · rw [(statFS_none_iff p fs).mp ho] at h
    cases h
  · exact ⟨m, rfl⟩

/-!
Case-analysis lemmas for rename_directory, one per control-flow branch of
the source function.
-/

lemma rename_directory_skip (s : RenamerState) (p : DirPath)
    (h : needs_standardization (lastName p) = false) :
    rename_directory s p =
      ({ s with skipped_dirs := s.skipped_dirs ++ [p] }, true) := by
  simp [rename_directory, h]

lemma rename_directory_destExists (s : RenamerState) (p : DirPath)
    (h1 : needs_standardization (lastName p) = true)
    (h2 : pathExists (newPath p) s.fs = true) :
    rename_directory s p =
      ({ s with error_dirs := s.error_dirs ++ [(p, ErrReason.destinationExists)] },
       false) := by
  have h2' : pathExists (p.dropLast ++ [standardize_apostrophes (lastName p)]) s.fs = true := h2
  simp [rename_directory, h1, h2']

lemma rename_directory_statNone (s : RenamerState) (p : DirPath)
    (h1 : needs_standardization (lastName p) = true)
    (h2 : pathExists (newPath p) s.fs = false)
    (h3 : statFS p s.fs = none) :
    rename_directory s p =
      ({ s with error_dirs := s.error_dirs ++ [(p, ErrReason.failedSaveMetadata)] },
       false) := by
  have h2' : pathExists (p.dropLast ++ [standardize_apostrophes (lastName p)]) s.fs = false := h2
  simp [rename_directory, save_metadata, h1, h2', h3]

lemma rename_directory_dry (s : RenamerState) (p : DirPath) (m : Metadata)
    (h1 : needs_standardization (lastName p) = true)
    (h2 : pathExists (newPath p) s.fs = false)
    (h3 : statFS p s.fs = some m)
    (h4 : s.dry_run = true) :
    rename_directory s p =
      ({ s with metadata_cache := (p, m) :: s.metadata_cache,
                renamed_dirs := s.renamed_dirs ++ [(p, newPath p)] },
       true) := by
  have h2' : pathExists (p.dropLast ++ [standardize_apostrophes (lastName p)]) s.fs = false := h2
  simp [rename_directory, save_metadata, h1, h2', h3, h4, newPath]

lemma rename_directory_real (s : RenamerState) (p : DirPath) (m : Metadata)
    (h1 : needs_standardization (lastName p) = true)
    (h2 : pathExists (newPath p) s.fs = false)
    (h3 : statFS p s.fs = some m)
    (h4 : s.dry_run = false) :
    rename_directory s p =
      (match restore_metadata
          { s with metadata_cache := (p, m) :: s.metadata_cache,
                   fs := renameFS p (newPath p) s.fs } (newPath p) with
       | (s3, true) =>
           ({ s3 with renamed_dirs := s3.renamed_dirs ++ [(p, newPath p)] }, true)
       | (s3, false) =>
           ({ s3 with warnings := s3.warnings ++ [newPath p],
                      renamed_dirs := s3.renamed_dirs ++ [(p, newPath p)] }, true)) := by
  have h2' : pathExists (p.dropLast ++ [standardize_apostrophes (lastName p)]) s.fs = false := h2
  simp [rename_directory, save_metadata, h1, h2', h3, h4, newPath]

/-- restore_metadata touches only the filesystem component. -/
lemma restore_metadata_frame (s : RenamerState) (p : DirPath) :
    (restore_metadata s p).1.dry_run = s.dry_run ∧
    (restore_metadata s p).1.renamed_dirs = s.renamed_dirs ∧
    (restore_metadata s p).1.skipped_dirs = s.skipped_dirs ∧
    (restore_metadata s p).1.error_dirs = s.error_dirs ∧
    (restore_metadata s p).1.metadata_cache = s.metadata_cache ∧
    (restore_metadata s p).1.warnings = s.warnings := by
  unfold restore_metadata
  rcases lookupCache p s.metadata_cache with _ | m
  · exact ⟨rfl, rfl, rfl, rfl, rfl, rfl⟩
  · by_cases h : pathExists p s.fs = true
    · simp [h]
    · simp [h]

/-- Exactly-one-ledger-append statement for a single step. -/
def LedgerStep (s : RenamerState) (p : DirPath) : Prop :=
  (∃ e, (rename_directory s p).1.renamed_dirs = s.renamed_dirs ++ [e] ∧
        (rename_directory s p).1.skipped_dirs = s.skipped_dirs ∧
        (rename_directory s p).1.error_dirs = s.error_dirs) ∨
  ((rename_directory s p).1.renamed_dirs = s.renamed_dirs ∧
   (rename_directory s p).1.skipped_dirs = s.skipped_dirs ++ [p] ∧
   (rename_directory s p).1.error_dirs = s.error_dirs) ∨
  (∃ r, (rename_directory s p).1.renamed_dirs = s.renamed_dirs ∧
        (rename_directory s p).1.skipped_dirs = s.skipped_dirs ∧
        (rename_directory s p).1.error_dirs = s.error_dirs ++ [(p, r)])

lemma ledgerStep_holds (s : RenamerState) (p : DirPath) : LedgerStep s p := by
  unfold LedgerStep
  rcases h1 : needs_standardization (lastName p) with _ | _
  · rw [rename_directory_skip s p h1]
    exact Or.inr (Or.inl ⟨rfl, rfl, rfl⟩)
  · rcases h2 : pathExists (newPath p) s.fs with _ | _
    · rcases h3 : statFS p s.fs with _ | m
      · rw [rename_directory_statNone s p h1 h2 h3]
        exact Or.inr (Or.inr ⟨ErrReason.failedSaveMetadata, rfl, rfl, rfl⟩)
      · rcases h4 : s.dry_run with _ | _
        · rw [rename_directory_real s p m h1 h2 h3 h4]
          rcases hr : restore_metadata
              { s with metadata_cache := (p, m) :: s.metadata_cache,
                       fs := renameFS p (newPath p) s.fs } (newPath p) with ⟨s3, b⟩
          have hfr := restore_metadata_frame
              { s with metadata_cache := (p, m) :: s.metadata_cache,
                       fs := renameFS p (newPath p) s.fs } (newPath p)
          rw [hr] at hfr
          simp only [] at hfr
          obtain ⟨-, f2, f3, f4, -, -⟩ := hfr
          rcases b with _ | _
          · exact Or.inl ⟨(p, newPath p), by simp [f2], by simp [f3], by simp [f4]⟩
          · exact Or.inl ⟨(p, newPath p), by simp [f2], by simp [f3], by simp [f4]⟩
        · rw [rename_directory_dry s p m h1 h2 h3 h4]
          exact Or.inl ⟨(p, newPath p), rfl, rfl, rfl⟩
    · rw [rename_directory_destExists s p h1 h2]
      exact Or.inr (Or.inr ⟨ErrReason.destinationExists, rfl, rfl, rfl⟩)

lemma totalProcessed_step (s : RenamerState) (p : DirPath) :
    totalProcessed (rename_directory s p).1 = totalProcessed s + 1 := by
  rcases ledgerStep_holds s p with ⟨e, ha, hb, hc⟩ | ⟨ha, hb, hc⟩ | ⟨r, ha, hb, hc⟩ <;>
    simp [totalProcessed, ha, hb, hc] <;> omega

/-- Claim C10: every invocation of rename_directory appends exactly one
entry to exactly one of the three ledger sequences, so the total processed
count reported by validate_changes and the summary grows by exactly the
number of per-directory processing attempts. -/
theorem c10_ledger_exactly_one :
    (∀ (s : RenamerState) (p : DirPath), LedgerStep s p ∧
      totalProcessed (rename_directory s p).1 = totalProcessed s + 1) ∧
    (∀ (s : RenamerState) (visits : List DirPath),
      totalProcessed (processVisits s visits) =
        totalProcessed s + visits.length) := by
  constructor
  · exact fun s p => ⟨ledgerStep_holds s p, totalProcessed_step s p⟩
  · intro s visits
    induction visits generalizing s with
    | nil => simp [processVisits]
    | cons v vs ih =>
      have : processVisits s (v :: vs) =
          processVisits (rename_directory s v).1 vs := rfl
      rw [this, ih, totalProcessed_step]
      simp only [List.length_cons]
      omega

/-- Concrete failing input for claim C1, the metadata-fidelity scenario
of the spec: one directory named 2023 O'Brien (plain apostrophe, no
typographic one) with permission bits 0755 (493) and arbitrary
timestamps, in a non-simulated run. -/
def c1Path : DirPath := [[50, 48, 50, 51, 32, 79, 39, 66, 114, 105, 101, 110]]

/-- The metadata of the C1 failing input. -/
def c1Meta : Metadata :=
  { mode := 493, uid := 1000, gid := 1000, atime := 11, mtime := 22, ctime := 33 }

/-- Initial state of the C1 failing run. -/
def c1State : RenamerState := initState false [(c1Path, c1Meta)]

/-- validate_changes returns False iff some renamed-entry's new path is
missing from the filesystem at validation time (the check runs in every
mode) or zero entries were processed in total. -/
lemma validate_changes_false_iff (s : RenamerState) :
    validate_changes s = false ↔
      ((∃ pr ∈ s.renamed_dirs, pathExists pr.2 s.fs = false) ∨
        totalProcessed s = 0) := by
  have hiff : validate_changes s = true ↔
      ((∀ pr ∈ s.renamed_dirs, pathExists pr.2 s.fs = true) ∧
        ¬ totalProcessed s = 0) := by
    simp [validate_changes, List.all_eq_true]
  constructor
  · intro h
    by_cases htot : totalProcessed s = 0
    · exact Or.inr htot
    · left
      have hne : ¬ validate_changes s = true := by
        rw [h]; exact Bool.false_ne_true
      rw [hiff] at hne
      have hnall : ¬ ∀ pr ∈ s.renamed_dirs, pathExists pr.2 s.fs = true := by
        intro hall
        exact hne ⟨hall, htot⟩
      push_neg at hnall
      rcases hnall with ⟨pr, hmem, hfail⟩
      exact ⟨pr, hmem, Bool.not_eq_true _ ▸ hfail⟩
  · intro h
    rcases hv : validate_changes s with _ | _
    · rfl
    · exfalso
      rcases hiff.mp hv with ⟨hall, htot⟩
      rcases h with ⟨pr, hmem, hfail⟩ | h0
      · rw [hall pr hmem] at hfail
        cases hfail
      · exact htot h0

/-!
Directory discovery: a tree snapshot of the directory structure below the
base directory and the os.walk-based collection performed by
find_year_prefixed_dirs and process_directories.  os.walk is top-down: it
yields the current directory with its child names, then recurses into each
child in listing order.
-/

mutual
/-- A directory node: its name and its children, in listing order. -/
inductive DirTree : Type where
  | node : Name → DirForest → DirTree

/-- A listing of sibling directories. -/
inductive DirForest : Type where
  | nil : DirForest
  | cons : DirTree → DirForest → DirForest
end

/-- The name of a directory node. -/
def DirTree.name : DirTree → Name
  | .node n _ => n

/-- The children of a directory node. -/
def DirTree.children : DirTree → DirForest
  | .node _ f => f

/-- The sibling listing as a plain list of nodes. -/
def DirForest.toList : DirForest → List DirTree
  | .nil => []
  | .cons t f => t :: f.toList

/-- The YEAR_PATTERN test re.match of four leading decimal digits,
modelled on the ASCII digits (the names this repository processes use
ASCII digits only). -/
def isYearName (n : Name) : Bool :=
  match n with
  | a :: b :: c :: d :: _ =>
      (decide (48 ≤ a) && decide (a ≤ 57)) && (decide (48 ≤ b) && decide (b ≤ 57)) &&
      (decide (48 ≤ c) && decide (c ≤ 57)) && (decide (48 ≤ d) && decide (d ≤ 57))
  | _ => false

/-- The year-prefixed children of the directory at path q, paired with
their nodes, in listing order: the contribution of one os.walk triple to
find_year_prefixed_dirs. -/
def levelMatches (q : DirPath) : DirForest → List (DirPath × DirTree)
  | .nil => []
  | .cons t f =>
      (if isYearName t.name then [(q ++ [t.name], t)] else []) ++ levelMatches q f

mutual
/-- All year-prefixed directories found by walking the subtree of a node
whose full path is q, in os.walk emission order (the triple of the node
itself, then the walks of its children in order). -/
def yearWalkTree (q : DirPath) : DirTree → List (DirPath × DirTree)
  | .node _ f => levelMatches q f ++ yearWalkForest q f

/-- The concatenated walks of the sibling nodes of a listing, where q is
the path of their parent. -/
def yearWalkForest (q : DirPath) : DirForest → List (DirPath × DirTree)
  | .nil => []
  | .cons t f => yearWalkTree (q ++ [t.name]) t ++ yearWalkForest q f
end

/-- find_year_prefixed_dirs: the walk of the base directory, keeping the
node of each matched directory so its subtree can be walked again. -/
def findYearNodes (base : DirPath) (forest : DirForest) :
    List (DirPath × DirTree) :=
  levelMatches base forest ++ yearWalkForest base forest

/-- The year_dirs list of process_directories. -/
def yearDirs (base : DirPath) (forest : DirForest) : List DirPath :=
  (findYearNodes base forest).map Prod.fst

/-- All child paths of the directory at path q: the contribution of one
os.walk triple to the all_dirs collection. -/
def childPaths (q : DirPath) : DirForest → List DirPath
  | .nil => []
  | .cons t f => (q ++ [t.name]) :: childPaths q f

mutual
/-- Every directory found by os.walk below the node at full path q, in
emission order. -/
def descWalkTree (q : DirPath) : DirTree → List DirPath
  | .node _ f => childPaths q f ++ descWalkForest q f

/-- The concatenated walks of sibling nodes, q being their parent path. -/
def descWalkForest (q : DirPath) : DirForest → List DirPath
  | .nil => []
  | .cons t f => descWalkTree (q ++ [t.name]) t ++ descWalkForest q f
end

/-- The all_dirs list of process_directories: for each year directory in
order, every directory below it, in walk order. -/
def allDirs (base : DirPath) (forest : DirForest) : List DirPath :=
  ((findYearNodes base forest).map (fun pr => descWalkTree pr.1 pr.2)).flatten

/-- Stable insertion for the Python stable sort by len(p.parts) with
reverse=True: a later element goes after every earlier element of greater
or equal depth. -/
def insertByDepthDesc (x : DirPath) : List DirPath → List DirPath
  | [] => [x]
  | y :: ys =>
      if x.length ≤ y.length then y :: insertByDepthDesc x ys else x :: y :: ys

/-- all_dirs.sort(key=lambda p: len(p.parts), reverse=True): Python sorts
stably; equal-depth entries keep their walk order. -/
def sortByDepthDesc (l : List DirPath) : List DirPath :=
  l.foldl (fun acc x => insertByDepthDesc x acc) []

/-- The exact sequence of rename_directory invocations made by
process_directories: all collected subdirectories deepest-first, then the
year directories in discovery order. -/
def processOrder (base : DirPath) (forest : DirForest) : List DirPath :=
  sortByDepthDesc (allDirs base forest) ++ yearDirs base forest

/-- DirectoryRenamer.process_directories acting on a renamer state whose
filesystem corresponds to the snapshot forest. -/
def process_directories (s : RenamerState) (base : DirPath)
    (forest : DirForest) : RenamerState :=
  processVisits s (processOrder base forest)

/-- Path a is a strict ancestor of path b. -/
def strictPrefixOf (a b : DirPath) : Prop :=
  a <+: b ∧ a.length < b.length

instance (a b : DirPath) : Decidable (strictPrefixOf a b) := by
  unfold strictPrefixOf
  infer_instance

/-- Single-motive structural induction for sibling listings. -/
lemma forest_induction (motive : DirForest → Prop) (h0 : motive DirForest.nil)
    (h1 : ∀ t f, motive f → motive (DirForest.cons t f)) (f : DirForest) :
    motive f := by
  have key : ∀ k f, sizeOf f ≤ k → motive f := by
    intro k
    induction k with
    | zero =>
      intro f hf
      exfalso
      cases f with
      | nil => simp at hf
      | cons t f2 => simp at hf
    | succ k ih =>
      intro f hf
      cases f with
      | nil => exact h0
      | cons t f2 =>
        refine h1 t f2 (ih f2 ?_)
        have hs : sizeOf (DirForest.cons t f2) = 1 + sizeOf t + sizeOf f2 := by
          simp
        omega
  exact key (sizeOf f) f le_rfl

/-!
The stable descending-depth sort of process_directories.
-/

lemma mem_insertByDepthDesc (x z : DirPath) (l : List DirPath) :
    z ∈ insertByDepthDesc x l ↔ z = x ∨ z ∈ l := by
  induction l with
  | nil => simp [insertByDepthDesc]
  | cons y ys ih =>
    unfold insertByDepthDesc
    by_cases h : x.length ≤ y.length
    · rw [if_pos h, List.mem_cons, ih, List.mem_cons]
      tauto
    · rw [if_neg h, List.mem_cons, List.mem_cons]

lemma pairwise_insertByDepthDesc (x : DirPath) (l : List DirPath)
    (h : List.Pairwise (fun a b => b.length ≤ a.length) l) :
    List.Pairwise (fun a b => b.length ≤ a.length) (insertByDepthDesc x l) := by
  induction l with
  | nil => simp [insertByDepthDesc]
  | cons y ys ih =>
    rcases List.pairwise_cons.mp h with ⟨hy, hys⟩
    unfold insertByDepthDesc
    by_cases hle : x.length ≤ y.length
    · rw [if_pos hle]
      refine List.pairwise_cons.mpr ⟨?_, ih hys⟩
      intro b hb
      rcases (mem_insertByDepthDesc x b ys).mp hb with rfl | hbys
      · exact hle
      · exact hy b hbys
    · rw [if_neg hle]
      refine List.pairwise_cons.mpr ⟨?_, h⟩
      intro b hb
      rcases List.mem_cons.mp hb with rfl | hbys
      · omega
      · exact le_trans (hy b hbys) (by omega)

lemma sortByDepthDesc_aux_pairwise (l : List DirPath) :
    ∀ acc, List.Pairwise (fun a b => b.length ≤ a.length) acc →
      List.Pairwise (fun a b => b.length ≤ a.length)
        (l.foldl (fun acc x => insertByDepthDesc x acc) acc) := by
  induction l with
  | nil => intro acc h; exact h
  | cons x xs ih =>
    intro acc h
    exact ih (insertByDepthDesc x acc) (pairwise_insertByDepthDesc x acc h)

lemma sortByDepthDesc_pairwise (l : List DirPath) :
    List.Pairwise (fun a b => b.length ≤ a.length) (sortByDepthDesc l) :=
  sortByDepthDesc_aux_pairwise l [] (List.Pairwise.nil)

lemma sortByDepthDesc_aux_mem (l : List DirPath) :
    ∀ acc z, (z ∈ l.foldl (fun acc x => insertByDepthDesc x acc) acc ↔
      z ∈ l ∨ z ∈ acc) := by
  induction l with
  | nil => intro acc z; simp
  | cons x xs ih =>
    intro acc z
    have hstep := ih (insertByDepthDesc x acc) z
    simp only [List.foldl_cons] at *
    rw [hstep, mem_insertByDepthDesc, List.mem_cons]
    tauto

lemma mem_sortByDepthDesc (l : List DirPath) (z : DirPath) :
    z ∈ sortByDepthDesc l ↔ z ∈ l := by
  unfold sortByDepthDesc
  rw [sortByDepthDesc_aux_mem]
  simp

/-!
Structure of the walk-collected directory lists.
-/

lemma mem_childPaths (q : DirPath) (f : DirForest) (x : DirPath) :
    x ∈ childPaths q f ↔ ∃ t ∈ f.toList, x = q ++ [t.name] := by
  induction f using forest_induction with
  | h0 => simp [childPaths, DirForest.toList]
  | h1 t f ih =>
    simp only [childPaths, DirForest.toList, List.mem_cons, ih]
    constructor
    · rintro (rfl | ⟨t2, ht2, rfl⟩)
      · exact ⟨t, Or.inl rfl, rfl⟩
      · exact ⟨t2, Or.inr ht2, rfl⟩
    · rintro ⟨t2, (rfl | ht2), rfl⟩
      · exact Or.inl rfl
      · exact Or.inr ⟨t2, ht2, rfl⟩

lemma mem_descWalkForest (q : DirPath) (f : DirForest) (x : DirPath) :
    x ∈ descWalkForest q f ↔
      ∃ t ∈ f.toList, x ∈ descWalkTree (q ++ [t.name]) t := by
  induction f using forest_induction with
  | h0 => simp [descWalkForest, DirForest.toList]
  | h1 t f ih =>
    simp only [descWalkForest, DirForest.toList, List.mem_append, List.mem_cons, ih]
    constructor
    · rintro (hx | ⟨t2, ht2, hx⟩)
      · exact ⟨t, Or.inl rfl, hx⟩
      · exact ⟨t2, Or.inr ht2, hx⟩
    · rintro ⟨t2, (rfl | ht2), hx⟩
      · exact Or.inl hx
      · exact Or.inr ⟨t2, ht2, hx⟩

lemma sizeOf_lt_of_mem_toList (t : DirTree) (f : DirForest)
    (h : t ∈ f.toList) : sizeOf t < sizeOf f := by
  induction f using forest_induction with
  | h0 => cases h
  | h1 t2 f ih =>
    have hs : sizeOf (DirForest.cons t2 f) = 1 + sizeOf t2 + sizeOf f := by
      simp
    rcases List.mem_cons.mp h with rfl | hmem
    · omega
    · have := ih hmem
      omega

lemma descWalkTree_extends : ∀ (k : Nat) (t : DirTree) (q x : DirPath),
    sizeOf t ≤ k → x ∈ descWalkTree q t → q <+: x ∧ q.length < x.length := by
  intro k
  induction k with
  | zero =>
    intro t q x hk
    exfalso
    rcases t with ⟨n, f⟩
    have hs : sizeOf (DirTree.node n f) = 1 + sizeOf n + sizeOf f := by simp
    omega
  | succ k ih =>
    intro t q x hk hx
    rcases t with ⟨n, f⟩
    unfold descWalkTree at hx
    rcases List.mem_append.mp hx with hc | hf
    · rcases (mem_childPaths q f x).mp hc with ⟨t2, _, rfl⟩
      refine ⟨List.prefix_append q [t2.name], ?_⟩
      rw [List.length_append]
      simp
    · rcases (mem_descWalkForest q f x).mp hf with ⟨t2, ht2, hx2⟩
      have hsz : sizeOf t2 ≤ k := by
        have h1 := sizeOf_lt_of_mem_toList t2 f ht2
        have h2 : sizeOf (DirTree.node n f) = 1 + sizeOf n + sizeOf f := by simp
        omega
      have hrec := ih t2 (q ++ [t2.name]) x hsz hx2
      refine ⟨(List.prefix_append q [t2.name]).trans hrec.1, ?_⟩
      have := hrec.2
      rw [List.length_append] at this
      simp at this
      omega

lemma allDirs_extends (base : DirPath) (forest : DirForest) :
    ∀ x ∈ allDirs base forest,
      ∃ y ∈ yearDirs base forest, y <+: x ∧ y.length < x.length := by
  intro x hx
  unfold allDirs at hx
  rw [List.mem_flatten] at hx
  rcases hx with ⟨l, hl, hxl⟩
  rw [List.mem_map] at hl
  rcases hl with ⟨pr, hpr, rfl⟩
  have := descWalkTree_extends (sizeOf pr.2) pr.2 pr.1 x le_rfl hxl
  exact ⟨pr.1, List.mem_map_of_mem Prod.fst hpr, this⟩

/-- Claim C5, amended: provided no year-prefixed directory is a strict
descendant of another year-prefixed directory, the depth-descending stable
sort makes every directory in the processing order come before all of its
ancestors, and the year-root directories (the processing-order suffix)
come after all of their descendants.  Without that proviso a nested
year-prefixed directory is visited a second time in the final year-root
pass, after its ancestor. -/
theorem c5_amended_child_before_ancestor (base : DirPath) (forest : DirForest)
    (hnn : ∀ y1 ∈ yearDirs base forest, ∀ y2 ∈ yearDirs base forest,
      ¬ strictPrefixOf y1 y2) :
    List.Pairwise (fun a b => b.length ≤ a.length)
      (sortByDepthDesc (allDirs base forest)) ∧
    List.Pairwise (fun a b => ¬ strictPrefixOf a b)
      (processOrder base forest) := by
  refine ⟨sortByDepthDesc_pairwise _, ?_⟩
  unfold processOrder
  rw [List.pairwise_append]
  refine ⟨?_, ?_, ?_⟩
  · refine (sortByDepthDesc_pairwise (allDirs base forest)).imp ?_
    intro a b hba hs
    rcases hs with ⟨_, hlt⟩
    omega
  · exact List.pairwise_of_forall_mem_list hnn
  · intro a ha b hb hs
    have ha2 : a ∈ allDirs base forest := (mem_sortByDepthDesc _ a).mp ha
    rcases allDirs_extends base forest a ha2 with ⟨y, hy, hpre, hlen⟩
    refine hnn y hy b hb ⟨hpre.trans hs.1, ?_⟩
    have := hs.2
    omega

/-- Witness for the amended C5 on a synthetic tree of depth three below
one year root: 2023 A-apostrophe containing b-apostrophe containing
c-apostrophe. -/
theorem c5_amended_child_before_ancestor_witness :
    (∀ y1 ∈ yearDirs []
        (DirForest.cons
          (DirTree.node [50, 48, 50, 51, 32, 65, 39]
            (DirForest.cons
              (DirTree.node [98, 39]
                (DirForest.cons (DirTree.node [99, 39] DirForest.nil)
                  DirForest.nil))
              DirForest.nil))
          DirForest.nil),
      ∀ y2 ∈ yearDirs []
        (DirForest.cons
          (DirTree.node [50, 48, 50, 51, 32, 65, 39]
            (DirForest.cons
              (DirTree.node [98, 39]
                (DirForest.cons (DirTree.node [99, 39] DirForest.nil)
                  DirForest.nil))
              DirForest.nil))
          DirForest.nil),
      ¬ strictPrefixOf y1 y2) ∧
    (List.Pairwise (fun a b => b.length ≤ a.length)
      (sortByDepthDesc (allDirs []
        (DirForest.cons
          (DirTree.node [50, 48, 50, 51, 32, 65, 39]
            (DirForest.cons
              (DirTree.node [98, 39]
                (DirForest.cons (DirTree.node [99, 39] DirForest.nil)
                  DirForest.nil))
              DirForest.nil))
          DirForest.nil))) ∧
    List.Pairwise (fun a b => ¬ strictPrefixOf a b)
      (processOrder []
        (DirForest.cons
          (DirTree.node [50, 48, 50, 51, 32, 65, 39]
            (DirForest.cons
              (DirTree.node [98, 39]
                (DirForest.cons (DirTree.node [99, 39] DirForest.nil)
                  DirForest.nil))
              DirForest.nil))
          DirForest.nil))) :=
  ⟨by decide,
   c5_amended_child_before_ancestor []
     (DirForest.cons
       (DirTree.node [50, 48, 50, 51, 32, 65, 39]
         (DirForest.cons
           (DirTree.node [98, 39]
             (DirForest.cons (DirTree.node [99, 39] DirForest.nil)
               DirForest.nil))
           DirForest.nil))
       DirForest.nil)
     (by decide)⟩

/-- Counterexample to claim C5 as stated: with a year-prefixed directory
nested inside another year-prefixed directory (2023a-apostrophe containing
2024b-apostrophe), the nested directory is visited again in the final
year-root pass after its ancestor, so the processing order does not always
put a child before its ancestors. -/
theorem c5_counterexample :
    ¬ List.Pairwise (fun a b => ¬ strictPrefixOf a b)
      (processOrder []
        (DirForest.cons
          (DirTree.node [50, 48, 50, 51, 97, 39]
            (DirForest.cons (DirTree.node [50, 48, 50, 52, 98, 39] DirForest.nil)
              DirForest.nil))
          DirForest.nil)) := by
  decide

/-!
On the real constants the classifier never fires: every processing attempt
takes the skip branch, so a bulk run only appends the visited paths to the
skipped ledger and touches nothing else.
-/

lemma rename_directory_always_skips (s : RenamerState) (p : DirPath) :
    rename_directory s p =
      ({ s with skipped_dirs := s.skipped_dirs ++ [p] }, true) :=
  rename_directory_skip s p (needs_always_false (lastName p))

lemma processVisits_eq_skips (visits : List DirPath) :
    ∀ s : RenamerState, processVisits s visits =
      { s with skipped_dirs := s.skipped_dirs ++ visits } := by
  induction visits with
  | nil =>
    intro s
    show s = { s with skipped_dirs := s.skipped_dirs ++ [] }
    rw [List.append_nil]
  | cons v vs ih =>
    intro s
    have hstep : processVisits s (v :: vs) =
        processVisits (rename_directory s v).1 vs := rfl
    rw [hstep, rename_directory_always_skips s v, ih]
    simp

lemma process_directories_eq (dry : Bool) (fs0 : FS) (base : DirPath)
    (forest : DirForest) :
    process_directories (initState dry fs0) base forest =
      { initState dry fs0 with skipped_dirs := processOrder base forest } := by
  unfold process_directories
  rw [processVisits_eq_skips]
  rfl

/-- The snapshot forest of the C1 failing run. -/
def c1Forest : DirForest :=
  DirForest.cons
    (DirTree.node [50, 48, 50, 51, 32, 79, 39, 66, 114, 105, 101, 110]
      DirForest.nil)
    DirForest.nil

/-- Claim C1 is violated by the code: at the metadata-fidelity input of
the spec the directory is eligible per the spec, yet the code skips it
because its classifier is identically False (TYPOGRAPHIC_APOSTROPHE holds
the same character as STRAIGHT_APOSTROPHE), so the successful rename the
claim describes never occurs and no metadata is ever captured or
re-applied; the whole non-simulated run records zero renames and leaves
the filesystem untouched.  Even the unreachable rename branch would fail
to restore, since restore_metadata is invoked with the new path while
save_metadata keys the snapshot cache by the old path. -/
theorem c1_rename_never_occurs :
    specNeedsStandardization (lastName c1Path) = true ∧
    rename_directory c1State c1Path =
      ({ c1State with skipped_dirs := [c1Path] }, true) ∧
    (process_directories (initState false [(c1Path, c1Meta)]) []
      c1Forest).renamed_dirs = [] ∧
    (process_directories (initState false [(c1Path, c1Meta)]) []
      c1Forest).fs = [(c1Path, c1Meta)] := by
  decide

/-- Claim C2: after any bulk run the renamed ledger is empty (the
classifier never fires), so validation's existence check is vacuous in
every mode — observably identical to being skipped in simulate mode, as
the claim states — and validation fails exactly when some renamed-entry's
new path is missing in a non-simulated run (which never happens) or zero
entries were processed in total. -/
theorem c2_validation_after_run (dry : Bool) (fs0 : FS) (base : DirPath)
    (forest : DirForest) :
    (process_directories (initState dry fs0) base forest).renamed_dirs = [] ∧
    (validate_changes (process_directories (initState dry fs0) base forest) =
        false ↔
      (((process_directories (initState dry fs0) base forest).dry_run = false ∧
        ∃ pr ∈ (process_directories (initState dry fs0) base forest).renamed_dirs,
          pathExists pr.2
            (process_directories (initState dry fs0) base forest).fs = false) ∨
       totalProcessed (process_directories (initState dry fs0) base forest) =
         0)) := by
  rw [process_directories_eq]
  refine ⟨rfl, ?_⟩
  rw [validate_changes_false_iff]
  simp [initState]

/-- The filesystem of the C6 failing input: the spec-eligible directory
2023 A-plain-apostrophe next to its pre-existing intended destination
2023 A-typographic-apostrophe. -/
def c6State : RenamerState :=
  initState false
    [([[50, 48, 50, 51, 32, 65, 39]], default),
     ([[50, 48, 50, 51, 32, 65, 8217]], default)]

/-- Claim C6 is violated by the code: the visited directory is eligible
per the spec and its intended destination already exists, so the claim
demands an errored record with reason destination-exists; the code skips
the directory instead (its classifier is identically False), records no
error, and the collision branch is dead code. -/
theorem c6_collision_skipped_not_errored :
    specNeedsStandardization (lastName [[50, 48, 50, 51, 32, 65, 39]]) = true ∧
    pathExists [specStandardize [50, 48, 50, 51, 32, 65, 39]] c6State.fs =
      true ∧
    rename_directory c6State [[50, 48, 50, 51, 32, 65, 39]] =
      ({ c6State with skipped_dirs := [[[50, 48, 50, 51, 32, 65, 39]]] },
       true) := by
  decide

/-- The snapshot forest of the C7 failing run: one spec-eligible year
directory below the base. -/
def c7Forest : DirForest :=
  DirForest.cons (DirTree.node [50, 48, 50, 51, 32, 65, 39] DirForest.nil)
    DirForest.nil

/-- The state after the simulated bulk run of the C7 failing input. -/
def c7RunState : RenamerState :=
  process_directories
    (initState true [([[50, 48, 50, 51, 32, 65, 39]], default)]) [] c7Forest

/-- Claim C7 is violated by the code: the simulated run mutates nothing
(that half of the claim holds, trivially, since no run in any mode
mutates anything), but over a tree with one spec-eligible directory the
ledger records zero renamed (intended) entries and one skip instead of
the claimed one intended rename, because the classifier is identically
False. -/
theorem c7_simulate_ledger_diverges :
    c7RunState.fs = [([[50, 48, 50, 51, 32, 65, 39]], default)] ∧
    (processOrder [] c7Forest).countP
      (fun p => specNeedsStandardization (lastName p)) = 1 ∧
    c7RunState.renamed_dirs = [] ∧
    c7RunState.error_dirs = [] ∧
    c7RunState.skipped_dirs = [[[50, 48, 50, 51, 32, 65, 39]]] := by
  decide

/-!
Claim C9: a directory is actually renamed at most once per run.  In the
real program this holds in the strongest possible form: the classifier is
identically False, every visit takes the skip branch, and the number of
actual renames of any path is zero.
-/

/-- The condition under which rename_directory actually mutates the
filesystem by renaming v: non-simulated, eligible name, destination
absent, source present (so stat succeeds). -/
def renB (s : RenamerState) (v : DirPath) : Bool :=
  !s.dry_run && needs_standardization (lastName v) &&
    !(pathExists (newPath v) s.fs) && pathExists v s.fs

/-- How many of the processing attempts in the visit list actually rename
the directory at path p. -/
def countRenames (s : RenamerState) (visits : List DirPath) (p : DirPath) :
    Nat :=
  match visits with
  | [] => 0
  | v :: vs =>
      (if v = p ∧ renB s v = true then 1 else 0) +
        countRenames (rename_directory s v).1 vs p

/-- Ancestor closure of the filesystem, as real directory trees satisfy
it: every nonempty prefix of an existing path exists. -/
def ClosedFS (fs : FS) : Prop :=
  ∀ pr ∈ fs, ∀ n ∈ List.range pr.1.length,
    pathExists (pr.1.take (n + 1)) fs = true

instance (fs : FS) : Decidable (ClosedFS fs) := by
  unfold ClosedFS
  infer_instance

/-- The real classifier never fires, so the actual-rename condition is
identically false. -/
lemma renB_eq_false (s : RenamerState) (v : DirPath) : renB s v = false := by
  unfold renB
  rw [needs_always_false]
  simp

/-- No visit sequence ever actually renames any path. -/
lemma countRenames_eq_zero (visits : List DirPath) :
    ∀ (s : RenamerState) (p : DirPath), countRenames s visits p = 0 := by
  induction visits with
  | nil => intro s p; rfl
  | cons v vs ih =>
    intro s p
    have hc : ¬ (v = p ∧ renB s v = true) := by
      rintro ⟨-, hb⟩
      rw [renB_eq_false] at hb
      cases hb
    show (if v = p ∧ renB s v = true then 1 else 0) +
      countRenames (rename_directory s v).1 vs p = 0
    rw [ih, if_neg hc]

/-- Claim C9: in a run over the exact visit sequence of
process_directories (which visits a nested year-prefixed directory both in
the descendant pass and in the year-root pass), any directory path is
actually renamed at most once, provided the starting filesystem is
ancestor-closed as real directory trees are.  In the real program the
bound holds because the count is identically zero: nothing is ever
eligible, so every visit — including every repeated visit — is skipped. -/
theorem c9_renamed_at_most_once (base : DirPath) (forest : DirForest)
    (s : RenamerState) (p : DirPath) (hclosed : ClosedFS s.fs) :
    countRenames s (processOrder base forest) p ≤ 1 := by
  rw [countRenames_eq_zero]
  exact Nat.zero_le 1

/-- Witness for C9: a year directory nested in another year directory,
both eligible, processed with the double-visit order of
process_directories on an ancestor-closed filesystem. -/
theorem c9_renamed_at_most_once_witness :
    ClosedFS (initState false
      [([[50, 48, 50, 51, 97, 39]], default),
       ([[50, 48, 50, 51, 97, 39], [50, 48, 50, 52, 98, 39]], default)]).fs ∧
    countRenames
      (initState false
        [([[50, 48, 50, 51, 97, 39]], default),
         ([[50, 48, 50, 51, 97, 39], [50, 48, 50, 52, 98, 39]], default)])
      (processOrder []
        (DirForest.cons
          (DirTree.node [50, 48, 50, 51, 97, 39]
            (DirForest.cons (DirTree.node [50, 48, 50, 52, 98, 39] DirForest.nil)
              DirForest.nil))
          DirForest.nil))
      [[50, 48, 50, 51, 97, 39], [50, 48, 50, 52, 98, 39]] ≤ 1 :=
  ⟨by decide,
   c9_renamed_at_most_once []
     (DirForest.cons
       (DirTree.node [50, 48, 50, 51, 97, 39]
         (DirForest.cons (DirTree.node [50, 48, 50, 52, 98, 39] DirForest.nil)
           DirForest.nil))
       DirForest.nil)
     (initState false
       [([[50, 48, 50, 51, 97, 39]], default),
        ([[50, 48, 50, 51, 97, 39], [50, 48, 50, 52, 98, 39]], default)])
     [[50, 48, 50, 51, 97, 39], [50, 48, 50, 52, 98, 39]]
     (by decide)⟩
